import Mathlib

/-!
Shallow embedding of the thought-kit thought lifecycle engine.

Sources embedded:
* `src/thought_kit/schemas/common_schema.py`, `thought_schema.py`,
  `memory_schema.py` — the data model (pydantic models become structures;
  floats become `ℚ`, datetimes become `ℤ` instants since the code only
  compares them).
* `src/thought_kit/modules/operations/{like,react,pin,anchor}_operation.py`
  — the built-in operations (in-place mutation of each list element
  becomes `List.map`).
* `src/thoughtfulLM/backend/app/stores/thought_store.py` — the bounded
  thought store (the insertion-ordered `dict` keyed by `Thought.id`
  becomes an id-keyed association list in insertion order).
* `src/thoughtfulLM/backend/app/stores/memory_store.py` — the two-tier
  memory store; Python attribute lookup on a pydantic model is made
  explicit so that the `m.timestamps` access (a field that does not
  exist on `MemoryItem`, whose field is named `timestamp`) is modelled
  as a fallible lookup.
* `src/thinkaloudLM/backend/app/utils/similarity.py` — cosine similarity
  (values in `ℝ` because of the square-root norms).
-/

namespace ThoughtKit

/-- Python's `round(x, 2)` on the rational model: round to an integer
number of hundredths.  Python rounds floats with banker's rounding; the
statements below never sit on a tie, where the two rules could differ,
so the simpler `⌊x·100 + 1/2⌋ / 100` model is used. -/
def round2 (q : ℚ) : ℚ := (round (100 * q) : ℤ) / 100

/-- `ThoughtConfig.interactivity` literal from `thought_schema.py`. -/
inductive Interactivity
  | VIEW
  | COMMENT
  | EDIT
deriving DecidableEq

/-- `ThoughtConfig.modality` literal from `thought_schema.py`. -/
inductive Modality
  | TEXT
  | EMOJI
  | VISUAL
deriving DecidableEq

/-- `Score` from `common_schema.py`: pydantic validates both fields into
`[0,1]` at construction, but assignments after construction are not
re-validated, so the fields are plain rationals here. -/
structure Score where
  weight : ℚ
  saliency : ℚ
deriving DecidableEq

/-- `Timestamps` from `common_schema.py`; instants carry only comparison
in the embedded code, so they are integers. -/
structure Timestamps where
  created : ℤ
  updated : ℤ
deriving DecidableEq

/-- `Content` from `common_schema.py`. -/
structure Content where
  text : String
  embedding : Option (List ℚ)
deriving DecidableEq

/-- `ThoughtConfig` from `thought_schema.py`. -/
structure ThoughtConfig where
  modality : Modality
  depth : ℕ
  interactivity : Interactivity
  persistent : Bool
deriving DecidableEq

/-- `Thought` from `thought_schema.py`.  The optional `seed` and
`trigger_event` payloads are never read or written by any of the code
embedded here, so they are omitted. -/
structure Thought where
  id : String
  timestamps : Timestamps
  content : Content
  config : ThoughtConfig
  references : List String
  user_comments : List String
  score : Score
deriving DecidableEq

/-- Body of the loop in `like` (`like_operation.py` lines 21-28): skip
`VIEW` thoughts, otherwise clamp the increased weight at
`2.0 - saliency` and round to 2 decimals. -/
def like1 (amount : ℚ) (t : Thought) : Thought :=
  if t.config.interactivity = .VIEW then t
  else
    let new_weight := min (t.score.weight + amount) (2 - t.score.saliency)
    { t with score := { t.score with weight := round2 new_weight } }

/-- `like` from `like_operation.py`: mutates each list element in place
and returns the same list. -/
def like (thoughts : List Thought) (amount : ℚ) : List Thought :=
  thoughts.map (like1 amount)

/-- Body of the loop in `dislike` (`like_operation.py` lines 47-54). -/
def dislike1 (amount : ℚ) (t : Thought) : Thought :=
  if t.config.interactivity = .VIEW then t
  else
    let new_weight := max (t.score.weight - amount) 0
    { t with score := { t.score with weight := round2 new_weight } }

/-- `dislike` from `like_operation.py`. -/
def dislike (thoughts : List Thought) (amount : ℚ) : List Thought :=
  thoughts.map (dislike1 amount)

/-- Body of the loop in `react` (`react_operation.py` lines 26-40):
`user_comments` is always a list on a validated `Thought`, so the
`hasattr`/`None` guard in the source is the identity here. -/
def react1 (reaction : String) (amount : ℚ) (t : Thought) : Thought :=
  if t.config.interactivity = .VIEW then t
  else
    { t with
      user_comments := t.user_comments ++ [reaction],
      score := { t.score with weight := round2 (min (t.score.weight + amount) 1) } }

/-- `react` from `react_operation.py`: an empty `reaction` string is
falsy in Python, so the whole call returns the list unchanged. -/
def react (thoughts : List Thought) (reaction : String) (amount : ℚ) : List Thought :=
  if reaction = "" then thoughts
  else thoughts.map (react1 reaction amount)

/-- `pin` from `pin_operation.py`: set `persistent` unconditionally. -/
def pin (thoughts : List Thought) : List Thought :=
  thoughts.map (fun t => { t with config := { t.config with persistent := true } })

/-- `unpin` from `pin_operation.py`. -/
def unpin (thoughts : List Thought) : List Thought :=
  thoughts.map (fun t => { t with config := { t.config with persistent := false } })

/-- `anchor` from `anchor_operation.py` (same primitive as `pin`). -/
def anchor (thoughts : List Thought) : List Thought :=
  thoughts.map (fun t => { t with config := { t.config with persistent := true } })

/-- `unanchor` from `anchor_operation.py`. -/
def unanchor (thoughts : List Thought) : List Thought :=
  thoughts.map (fun t => { t with config := { t.config with persistent := false } })

/-- `ThoughtStore` state from `thought_store.py`: `self.thoughts` is an
insertion-ordered dict keyed by `Thought.id` (modelled as a list whose
ids are unique in every reachable state), `self.max_thought_count` a
Python int. -/
structure ThoughtStore where
  thoughts : List Thought
  max_thought_count : ℤ
deriving DecidableEq

/-- `self.thoughts[thought.id] = thought`: an existing key keeps its
position and gets the new value, a fresh key is appended. -/
def dictInsert (ts : List Thought) (t : Thought) : List Thought :=
  if ts.any (fun u => u.id = t.id) then
    ts.map (fun u => if u.id = t.id then t else u)
  else ts ++ [t]

/-- `ThoughtStore.remove_thought`: delete the entry with that key (keys
are unique, so filtering models `del`). -/
def remove_thought (s : ThoughtStore) (thought_id : String) : Bool × ThoughtStore :=
  if s.thoughts.any (fun u => u.id = thought_id) then
    (true, { s with thoughts := s.thoughts.filter (fun u => u.id ≠ thought_id) })
  else (false, s)

/-- First element of `sorted(ts, key=saliency)`: Python's sort is
stable, so the head of the sorted list is the earliest element holding
the minimal `score.saliency`. -/
def leastSalient : List Thought → Option Thought
  | [] => none
  | t :: ts =>
    match leastSalient ts with
    | none => some t
    | some m => if m.score.saliency < t.score.saliency then some m else some t

/-- `ThoughtStore._prune_least_salient_thought` (lines 124-146): filter
out persistent thoughts, take the first minimal-saliency one of the
rest, and remove it; when every thought is persistent nothing happens. -/
def pruneLeastSalient (s : ThoughtStore) : ThoughtStore :=
  if s.thoughts.isEmpty then s
  else
    let filtered := s.thoughts.filter (fun t => !t.config.persistent)
    match leastSalient filtered with
    | some least => (remove_thought s least.id).2
    | none => s

/-- `ThoughtStore.add_thought` (lines 30-47): store the thought, prune
once if the count now exceeds `max_thought_count`, return the argument. -/
def add_thought (s : ThoughtStore) (thought : Thought) : Thought × ThoughtStore :=
  let s1 : ThoughtStore := { s with thoughts := dictInsert s.thoughts thought }
  let s2 := if (s1.thoughts.length : ℤ) > s1.max_thought_count then pruneLeastSalient s1 else s1
  (thought, s2)

/-- `ThoughtStore.get_thought`: `self.thoughts.get(thought_id)`. -/
def get_thought (s : ThoughtStore) (thought_id : String) : Option Thought :=
  s.thoughts.find? (fun t => t.id = thought_id)

/-- The `while len(self.thoughts) > self.max_thought_count` loop of
`ThoughtStore.set_max_thought_count`, run with explicit fuel; `none`
means the loop is still running after `fuel` iterations. -/
def pruneLoop : ℕ → ThoughtStore → Option ThoughtStore
  | 0, s => if (s.thoughts.length : ℤ) > s.max_thought_count then none else some s
  | fuel + 1, s =>
    if (s.thoughts.length : ℤ) > s.max_thought_count then pruneLoop fuel (pruneLeastSalient s)
    else some s

/-- `ThoughtStore.set_max_thought_count` (lines 111-122): assign the new
capacity, then prune in a loop while over capacity. -/
def set_max_thought_count (fuel : ℕ) (s : ThoughtStore) (count : ℤ) : Option ThoughtStore :=
  pruneLoop fuel { s with max_thought_count := count }

/-- `MemoryItem.type` literal from `memory_schema.py`. -/
inductive MemoryType
  | LONG_TERM
  | SHORT_TERM
deriving DecidableEq

/-- `MemoryItem` from `memory_schema.py`: note the timestamp field is
declared as `timestamp`, singular. -/
structure MemoryItem where
  id : String
  timestamp : Timestamps
  type : MemoryType
  content : Content
deriving DecidableEq

/-- Value of a `MemoryItem` attribute, for modelling Python attribute
lookup on the pydantic model. -/
inductive MemAttr
  | str (s : String)
  | ts (t : Timestamps)
  | mtype (m : MemoryType)
  | cont (c : Content)
deriving DecidableEq

/-- Python attribute lookup on a `MemoryItem`: exactly the fields
declared in `memory_schema.py` resolve; any other name raises
`AttributeError` (here: `none`). -/
def MemoryItem.getattr (m : MemoryItem) (name : String) : Option MemAttr :=
  if name = "id" then some (.str m.id)
  else if name = "timestamp" then some (.ts m.timestamp)
  else if name = "type" then some (.mtype m.type)
  else if name = "content" then some (.cont m.content)
  else none

/-- The sort key `lambda m: m.timestamps.created` used by
`MemoryStore._prune_oldest_memory` — it reads the attribute named
`timestamps`, which `MemoryItem` does not declare. -/
def memSortKey (m : MemoryItem) : Option ℤ :=
  match m.getattr "timestamps" with
  | some (.ts t) => some t.created
  | _ => none

/-- `MemoryStore` state from `memory_store.py`. -/
structure MemoryStore where
  long_term : List MemoryItem
  short_term : List MemoryItem
  max_short_term_count : ℤ
  max_long_term_count : ℤ
deriving DecidableEq

/-- `MemoryStore.remove_memory_item`: remove the first id match,
searching long-term memory first. -/
def remove_memory_item (s : MemoryStore) (memory_id : String) : Bool × MemoryStore :=
  if s.long_term.any (fun m => m.id = memory_id) then
    (true, { s with long_term := s.long_term.eraseP (fun m => m.id = memory_id) })
  else if s.short_term.any (fun m => m.id = memory_id) then
    (true, { s with short_term := s.short_term.eraseP (fun m => m.id = memory_id) })
  else (false, s)

/-- Body fold for `firstOldest`: keep the earlier entry on equal keys. -/
def firstOldestGo : List (MemoryItem × ℤ) → MemoryItem × ℤ → MemoryItem × ℤ
  | [], acc => acc
  | p :: ps, acc => firstOldestGo ps (if p.2 < acc.2 then p else acc)

/-- Head of `sorted(items, key)` paired with keys: the earliest item
holding the minimal key (Python's sort is stable). -/
def firstOldest : List (MemoryItem × ℤ) → Option MemoryItem
  | [] => none
  | p :: ps => some (firstOldestGo ps p).1

/-- `MemoryStore._prune_oldest_memory` (lines 202-232): sort the tier by
`m.timestamps.created` and remove the head.  Computing the sort keys
evaluates `m.timestamps` on each item, which raises `AttributeError`
(`none`) because the field is named `timestamp`. -/
def pruneOldestMemory (s : MemoryStore) (memory_type : MemoryType) : Option MemoryStore :=
  match memory_type with
  | .LONG_TERM =>
    if s.long_term.isEmpty then some s
    else
      match s.long_term.mapM (fun m => (memSortKey m).map (fun k => (m, k))) with
      | none => none
      | some pairs =>
        match firstOldest pairs with
        | some oldest => some (remove_memory_item s oldest.id).2
        | none => some s
  | .SHORT_TERM =>
    if s.short_term.isEmpty then some s
    else
      match s.short_term.mapM (fun m => (memSortKey m).map (fun k => (m, k))) with
      | none => none
      | some pairs =>
        match firstOldest pairs with
        | some oldest => some (remove_memory_item s oldest.id).2
        | none => some s

/-- `MemoryStore.add_memory_item` (lines 27-52): append to the item's
tier, then prune that tier once if it now exceeds its capacity; `none`
models the `AttributeError` escaping from the prune. -/
def add_memory_item (s : MemoryStore) (memory_item : MemoryItem) : Option (MemoryItem × MemoryStore) :=
  match memory_item.type with
  | .SHORT_TERM =>
    let s1 : MemoryStore := { s with short_term := s.short_term ++ [memory_item] }
    if (s1.short_term.length : ℤ) > s1.max_short_term_count then
      (pruneOldestMemory s1 .SHORT_TERM).map (fun s2 => (memory_item, s2))
    else some (memory_item, s1)
  | .LONG_TERM =>
    let s1 : MemoryStore := { s with long_term := s.long_term ++ [memory_item] }
    if (s1.long_term.length : ℤ) > s1.max_long_term_count then
      (pruneOldestMemory s1 .LONG_TERM).map (fun s2 => (memory_item, s2))
    else some (memory_item, s1)

/-- `np.dot` of the two embedding vectors (used on equal-length
embeddings; rationals model the float entries exactly). -/
def npDot (v w : List ℚ) : ℚ := (List.zipWith (fun x y => x * y) v w).sum

/-- Sum of squared entries, so that `np.linalg.norm v = √(sumSq v)`. -/
def sumSq (v : List ℚ) : ℚ := (v.map (fun x => x * x)).sum

/-- `cosine_similarity` from `similarity.py` (lines 4-42): 0 for `None`
or empty embeddings, 0 when either magnitude is 0, otherwise the dot
product over the product of norms, clamped into `[-1, 1]`. -/
noncomputable def cosine_similarity (embedding1 embedding2 : Option (List ℚ)) : ℝ :=
  match embedding1, embedding2 with
  | none, _ => 0
  | _, none => 0
  | some v1, some v2 =>
    if v1.length = 0 ∨ v2.length = 0 then 0
    else
      let dot_product : ℝ := (npDot v1 v2 : ℚ)
      let magnitude1 : ℝ := Real.sqrt ((sumSq v1 : ℚ) : ℝ)
      let magnitude2 : ℝ := Real.sqrt ((sumSq v2 : ℚ) : ℝ)
      if magnitude1 = 0 ∨ magnitude2 = 0 then 0
      else max (min (dot_product / (magnitude1 * magnitude2)) 1) (-1)

/-- Result of the similarity-merge step: either an updated copy of an
existing candidate, or the new thought admitted as a new record. -/
inductive MergeOutcome
  | merged (t : Thought)
  | admitted (t : Thought)
deriving DecidableEq

/-- Modelled from the spec: the similarity-merge step of §4.6 is not
among the repository sources here (only its `cosine_similarity` helper
is, which this definition calls).  Per the spec's words: scan the
candidates in order; on the first one whose cosine similarity with the
new thought exceeds 0.8, return an updated copy of that candidate with
`score.saliency = min(saliency + 0.2, 2.0 - weight)` instead of
admitting a new record; if none exceeds 0.8, admit the new thought. -/
noncomputable def similarity_merge (newThought : Thought) : List Thought → MergeOutcome
  | [] => .admitted newThought
  | c :: rest =>
    if (0.8 : ℝ) < cosine_similarity newThought.content.embedding c.content.embedding then
      .merged { c with score :=
        { c.score with saliency := min (c.score.saliency + 0.2) (2 - c.score.weight) } }
    else similarity_merge newThought rest

/-- A concrete thought for instantiating theorems: everything not named
is inert for the embedded code. -/
def sampleThought (id : String) (inter : Interactivity) (pers : Bool) (w s : ℚ) : Thought :=
  { id := id
    timestamps := { created := 0, updated := 0 }
    content := { text := id, embedding := none }
    config := { modality := .TEXT, depth := 1, interactivity := inter, persistent := pers }
    references := []
    user_comments := []
    score := { weight := w, saliency := s } }

/-- A concrete thought carrying an embedding, for the similarity-merge
theorems. -/
def sampleThoughtE (id : String) (e : Option (List ℚ)) (w s : ℚ) : Thought :=
  { sampleThought id .EDIT false w s with content := { text := id, embedding := e } }

/-- Concrete thought whose saliency is a whole number of hundredths. -/
def tHundredths : Thought := sampleThought "w3" .COMMENT false (9/10) (3/10)

/-- Concrete thought with `weight = 0.8`, `saliency = 0.2`, COMMENT. -/
def tMid : Thought := sampleThought "mid" .COMMENT false (4/5) (1/5)

/-- Concrete thought with `weight = 0.9`, `saliency = 0.9`, COMMENT. -/
def tHighSal : Thought := sampleThought "high" .COMMENT false (9/10) (9/10)

/-- Concrete thought with `saliency = 0.004`, not a whole number of
hundredths. -/
def tTinySal : Thought := sampleThought "tiny" .COMMENT false (9/10) (1/250)

/-- Concrete VIEW-only thought. -/
def tView : Thought := sampleThought "view" .VIEW false (1/2) (1/2)

/-- Concrete thought with distinctive timestamps. -/
def tStamped : Thought :=
  { sampleThought "c9" .COMMENT false (1/2) (1/2) with
    timestamps := { created := 5, updated := 7 } }

/-- Concrete persistent thoughts. -/
def tPers1 : Thought := sampleThought "p1" .COMMENT true (1/2) (1/2)

/-- Second concrete persistent thought. -/
def tPers2 : Thought := sampleThought "p2" .COMMENT true (3/10) (3/10)

/-- Concrete stored thought with saliency `0.5`. -/
def tStoredA : Thought := sampleThought "a" .COMMENT false (1/2) (1/2)

/-- Concrete new thought with saliency `0.25`, lower than `tStoredA`'s. -/
def tNewLow : Thought := sampleThought "b" .COMMENT false (1/4) (1/4)

/-- A thought store filled exactly to its capacity of 1. -/
def storeFull : ThoughtStore := { thoughts := [tStoredA], max_thought_count := 1 }

/-- Concrete short-term memory item already stored. -/
def mOld : MemoryItem :=
  { id := "m1", timestamp := { created := 0, updated := 0 }, type := .SHORT_TERM,
    content := { text := "a", embedding := none } }

/-- Concrete short-term memory item to be added. -/
def mNew : MemoryItem :=
  { id := "m2", timestamp := { created := 1, updated := 1 }, type := .SHORT_TERM,
    content := { text := "b", embedding := none } }

/-- A memory store whose short-term tier is at its capacity of 1. -/
def memStoreFull : MemoryStore :=
  { long_term := [], short_term := [mOld], max_short_term_count := 1,
    max_long_term_count := 20 }

/-- A freshly generated thought with embedding `[1, 0]`. -/
def tEmbedNew : Thought := sampleThoughtE "new" (some [1, 0]) 0 (1/2)

/-- Candidate with embedding `[0, 1]`, orthogonal to `tEmbedNew`'s. -/
def tCandOrth : Thought := sampleThoughtE "c1" (some [0, 1]) (1/2) (1/2)

/-- Candidate with embedding `[2, 0]`, parallel to `tEmbedNew`'s. -/
def tCandNear : Thought := sampleThoughtE "c2" (some [2, 0]) (1/2) (1/2)

/-!  Helper lemmas about `round2`.  -/

lemma round2_intCast_div (k : ℤ) : round2 ((k : ℚ) / 100) = (k : ℚ) / 100 := by
  unfold round2
  rw [show (100 : ℚ) * ((k : ℚ) / 100) = (k : ℚ) by ring, round_intCast]

lemma round2_mono {x y : ℚ} (h : x ≤ y) : round2 x ≤ round2 y := by
  unfold round2
  have h1 : round (100 * x) ≤ round (100 * y) := by
    rw [round_eq, round_eq]
    exact Int.floor_mono (by linarith)
  have h2 : ((round (100 * x) : ℤ) : ℚ) ≤ ((round (100 * y) : ℤ) : ℚ) := Int.cast_le.mpr h1
  linarith

lemma round2_zero : round2 0 = 0 := by
  unfold round2
  rw [show (100 : ℚ) * 0 = ((0 : ℤ) : ℚ) by norm_num, round_intCast]
  norm_num

lemma round2_one : round2 1 = 1 := by
  unfold round2
  rw [show (100 : ℚ) * 1 = ((100 : ℤ) : ℚ) by norm_num, round_intCast]
  norm_num

lemma round2_nonneg {x : ℚ} (hx : 0 ≤ x) : 0 ≤ round2 x := by
  have h := round2_mono hx
  rwa [round2_zero] at h

lemma round2_le_one {x : ℚ} (hx : x ≤ 1) : round2 x ≤ 1 := by
  have h := round2_mono hx
  rwa [round2_one] at h

lemma round2_abs_sub (x : ℚ) : |x - round2 x| ≤ 1 / 200 := by
  have h := abs_sub_round (100 * x)
  rw [abs_le] at h ⊢
  unfold round2
  constructor <;> [linarith [h.1]; linarith [h.2]]

/-- One `like` call keeps saliency fixed and the weight below
`2 - saliency` whenever the saliency is a whole number of hundredths. -/
lemma like_step_bounded (k : ℤ) (a : ℚ) (ts : List Thought)
    (h : ∀ u ∈ ts, u.score.saliency = (k : ℚ) / 100 ∧ u.score.weight ≤ 2 - (k : ℚ) / 100) :
    ∀ u ∈ like ts a, u.score.saliency = (k : ℚ) / 100 ∧ u.score.weight ≤ 2 - (k : ℚ) / 100 := by
  intro u hu
  rw [like, List.mem_map] at hu
  obtain ⟨t, ht, rfl⟩ := hu
  obtain ⟨hs, hw⟩ := h t ht
  unfold like1
  split
  · exact ⟨hs, hw⟩
  · refine ⟨hs, ?_⟩
    have h1 : min (t.score.weight + a) (2 - t.score.saliency) ≤ 2 - (k : ℚ) / 100 := by
      rw [hs]
      exact min_le_right _ _
    have h2 := round2_mono h1
    have h3 : round2 (2 - (k : ℚ) / 100) = 2 - (k : ℚ) / 100 := by
      have h4 := round2_intCast_div (200 - k)
      push_cast at h4
      rw [show ((200 : ℚ) - k) / 100 = 2 - (k : ℚ) / 100 by ring] at h4
      exact h4
    rw [h3] at h2
    exact h2

/-- C3, counterexample: a COMMENT thought with `weight = 0.9`,
`saliency = 0.004` (so `weight + saliency ≤ 2.0` initially) driven by
three `like(amount=0.5)` calls ends with `weight = 2.0`, which exceeds
`2.0 - saliency = 1.996` — rounding to two decimals can round past the
clamp when the saliency is not a whole number of hundredths. -/
theorem like_repeated_exceeds_two_counterexample :
    tTinySal.score.weight + tTinySal.score.saliency ≤ 2 ∧
    tTinySal.config.interactivity ≠ .VIEW ∧
    (0 : ℚ) ≤ 1/2 ∧
    (like (like (like [tTinySal] (1/2)) (1/2)) (1/2)).map (fun u => u.score.weight) = [2] ∧
    ¬ ((2 : ℚ) ≤ 2 - tTinySal.score.saliency) := by
  refine ⟨by norm_num [tTinySal, sampleThought], by simp [tTinySal, sampleThought], by norm_num,
    ?_, by norm_num [tTinySal, sampleThought]⟩
  simp [like, like1, tTinySal, sampleThought, round2, round_eq, min_def]
  norm_num

/-- C3 (amended): when the thought's saliency is a whole number of
hundredths, any sequence of `like` calls (any amounts) keeps the weight
at most `2.0 - saliency`, hence `weight + saliency ≤ 2.0` throughout. -/
theorem like_repeated_bounded_when_saliency_hundredths (t : Thought) (amounts : List ℚ)
    (hs : ∃ k : ℤ, t.score.saliency = (k : ℚ) / 100)
    (hw : t.score.weight ≤ 2 - t.score.saliency) :
    ∀ u ∈ amounts.foldl (fun ts a => like ts a) [t],
      u.score.saliency = t.score.saliency ∧ u.score.weight ≤ 2 - t.score.saliency := by
  obtain ⟨k, hk⟩ := hs
  rw [hk] at hw ⊢
  have main : ∀ (am : List ℚ) (ts : List Thought),
      (∀ u ∈ ts, u.score.saliency = (k : ℚ) / 100 ∧ u.score.weight ≤ 2 - (k : ℚ) / 100) →
      ∀ u ∈ am.foldl (fun ts a => like ts a) ts,
        u.score.saliency = (k : ℚ) / 100 ∧ u.score.weight ≤ 2 - (k : ℚ) / 100 := by
    intro am
    induction am with
    | nil => intro ts h; simpa using h
    | cons a rest ih =>
      intro ts h
      rw [List.foldl_cons]
      exact ih _ (like_step_bounded k a ts h)
  refine main amounts [t] ?_
  intro u hu
  rw [List.mem_singleton] at hu
  subst hu
  exact ⟨hk, hw⟩

/-- Witness for the amended C3 theorem at a concrete thought
(`saliency = 0.30 = 30/100`) and two `like(0.5)` calls. -/
theorem like_repeated_bounded_when_saliency_hundredths_witness :
    (∃ k : ℤ, tHundredths.score.saliency = (k : ℚ) / 100) ∧
    tHundredths.score.weight ≤ 2 - tHundredths.score.saliency ∧
    ∀ u ∈ [(1:ℚ)/2, 1/2].foldl (fun ts a => like ts a) [tHundredths],
      u.score.saliency = tHundredths.score.saliency ∧
      u.score.weight ≤ 2 - tHundredths.score.saliency :=
  ⟨⟨30, by norm_num [tHundredths, sampleThought]⟩,
   by norm_num [tHundredths, sampleThought],
   like_repeated_bounded_when_saliency_hundredths tHundredths [(1:ℚ)/2, 1/2]
     ⟨30, by norm_num [tHundredths, sampleThought]⟩
     (by norm_num [tHundredths, sampleThought])⟩

/-- C4, counterexample: `like` with `amount = 0.5` on a COMMENT thought
with `weight = 0.8`, `saliency = 0.2` (both in `[0,1]`) produces
`weight = 1.3 ∉ [0,1]`. -/
theorem like_pushes_weight_above_one_counterexample :
    0 ≤ tMid.score.weight ∧ tMid.score.weight ≤ 1 ∧
    0 ≤ tMid.score.saliency ∧ tMid.score.saliency ≤ 1 ∧
    (like [tMid] (1/2)).map (fun u => u.score.weight) = [13/10] ∧
    ¬ ((13/10 : ℚ) ≤ 1) := by
  refine ⟨by norm_num [tMid, sampleThought], by norm_num [tMid, sampleThought],
    by norm_num [tMid, sampleThought], by norm_num [tMid, sampleThought], ?_, by norm_num⟩
  simp [like, like1, tMid, sampleThought, round2, round_eq, min_def]
  norm_num

/-- C4 (amended): with any non-negative amount and scores in `[0,1]`,
the operations `dislike`, `react`, `pin`, `unpin`, `anchor`, `unanchor`
keep `score.weight` in `[0,1]`; `like` guarantees only `0 ≤ weight` and
can push the weight above 1 (up to `2.0 - saliency`, rounded). -/
theorem operations_weight_range_amended (ts : List Thought) (r : String) (a : ℚ)
    (ha : 0 ≤ a)
    (h : ∀ t ∈ ts, 0 ≤ t.score.weight ∧ t.score.weight ≤ 1 ∧
      0 ≤ t.score.saliency ∧ t.score.saliency ≤ 1) :
    (∀ u ∈ dislike ts a, 0 ≤ u.score.weight ∧ u.score.weight ≤ 1) ∧
    (∀ u ∈ react ts r a, 0 ≤ u.score.weight ∧ u.score.weight ≤ 1) ∧
    (∀ u ∈ pin ts, 0 ≤ u.score.weight ∧ u.score.weight ≤ 1) ∧
    (∀ u ∈ unpin ts, 0 ≤ u.score.weight ∧ u.score.weight ≤ 1) ∧
    (∀ u ∈ anchor ts, 0 ≤ u.score.weight ∧ u.score.weight ≤ 1) ∧
    (∀ u ∈ unanchor ts, 0 ≤ u.score.weight ∧ u.score.weight ≤ 1) ∧
    (∀ u ∈ like ts a, 0 ≤ u.score.weight) := by
  refine ⟨?_, ?_, ?_, ?_, ?_, ?_, ?_⟩
  · intro u hu
    rw [dislike, List.mem_map] at hu
    obtain ⟨t, ht, rfl⟩ := hu
    obtain ⟨h0, h1, hs0, hs1⟩ := h t ht
    unfold dislike1
    split
    · exact ⟨h0, h1⟩
    · exact ⟨round2_nonneg (le_max_right _ _),
        round2_le_one (max_le (by linarith) (by norm_num))⟩
  · intro u hu
    by_cases hr : r = ""
    · rw [react, if_pos hr] at hu
      obtain ⟨h0, h1, _, _⟩ := h u hu
      exact ⟨h0, h1⟩
    · rw [react, if_neg hr, List.mem_map] at hu
      obtain ⟨t, ht, rfl⟩ := hu
      obtain ⟨h0, h1, hs0, hs1⟩ := h t ht
      unfold react1
      split
      · exact ⟨h0, h1⟩
      · exact ⟨round2_nonneg (le_min (by linarith) (by norm_num)),
          round2_le_one (min_le_right _ _)⟩
  · intro u hu
    rw [pin, List.mem_map] at hu
    obtain ⟨t, ht, rfl⟩ := hu
    obtain ⟨h0, h1, _, _⟩ := h t ht
    exact ⟨h0, h1⟩
  · intro u hu
    rw [unpin, List.mem_map] at hu
    obtain ⟨t, ht, rfl⟩ := hu
    obtain ⟨h0, h1, _, _⟩ := h t ht
    exact ⟨h0, h1⟩
  · intro u hu
    rw [anchor, List.mem_map] at hu
    obtain ⟨t, ht, rfl⟩ := hu
    obtain ⟨h0, h1, _, _⟩ := h t ht
    exact ⟨h0, h1⟩
  · intro u hu
    rw [unanchor, List.mem_map] at hu
    obtain ⟨t, ht, rfl⟩ := hu
    obtain ⟨h0, h1, _, _⟩ := h t ht
    exact ⟨h0, h1⟩
  · intro u hu
    rw [like, List.mem_map] at hu
    obtain ⟨t, ht, rfl⟩ := hu
    obtain ⟨h0, h1, hs0, hs1⟩ := h t ht
    unfold like1
    split
    · exact h0
    · exact round2_nonneg (le_min (by linarith) (by linarith))

/-- Witness for the amended C4 theorem at a concrete thought and
`amount = 0.5`. -/
theorem operations_weight_range_amended_witness :
    (0 : ℚ) ≤ 1/2 ∧
    (∀ t ∈ [tMid], 0 ≤ t.score.weight ∧ t.score.weight ≤ 1 ∧
      0 ≤ t.score.saliency ∧ t.score.saliency ≤ 1) ∧
    ((∀ u ∈ dislike [tMid] (1/2), 0 ≤ u.score.weight ∧ u.score.weight ≤ 1) ∧
     (∀ u ∈ react [tMid] "ok" (1/2), 0 ≤ u.score.weight ∧ u.score.weight ≤ 1) ∧
     (∀ u ∈ pin [tMid], 0 ≤ u.score.weight ∧ u.score.weight ≤ 1) ∧
     (∀ u ∈ unpin [tMid], 0 ≤ u.score.weight ∧ u.score.weight ≤ 1) ∧
     (∀ u ∈ anchor [tMid], 0 ≤ u.score.weight ∧ u.score.weight ≤ 1) ∧
     (∀ u ∈ unanchor [tMid], 0 ≤ u.score.weight ∧ u.score.weight ≤ 1) ∧
     (∀ u ∈ like [tMid] (1/2), 0 ≤ u.score.weight)) :=
  ⟨by norm_num, by norm_num [tMid, sampleThought],
   operations_weight_range_amended [tMid] "ok" (1/2) (by norm_num)
     (by norm_num [tMid, sampleThought])⟩

/-- C6, counterexample: on a COMMENT thought with `weight = 0.9`,
`saliency = 0.9`, `like(0.5)` is clamped at `2.0 - saliency = 1.1`, so
the following `dislike(0.5)` lands at `0.6`, not back at `0.9`. -/
theorem like_dislike_clamped_counterexample :
    tHighSal.config.interactivity = .COMMENT ∧
    tHighSal.score.weight = 9/10 ∧
    (dislike (like [tHighSal] (1/2)) (1/2)).map (fun u => u.score.weight) = [3/5] ∧
    ¬ (|(3/5 : ℚ) - 9/10| ≤ 1/100) := by
  refine ⟨by simp [tHighSal, sampleThought], by norm_num [tHighSal, sampleThought], ?_,
    by rw [abs_le]; norm_num⟩
  simp [like, like1, dislike, dislike1, tHighSal, sampleThought, round2, round_eq,
    min_def, max_def]
  norm_num

/-- C6 (amended): when the `like` call is not clamped
(`weight + amount ≤ 2.0 - saliency`), `like` then `dislike` with the
same non-negative amount returns the weight to within one hundredth of
its original value on a non-VIEW thought, and is exactly a no-op on a
VIEW thought. -/
theorem like_dislike_roundtrip_amended (t : Thought) (a : ℚ)
    (hw : 0 ≤ t.score.weight)
    (hclamp : t.score.weight + a ≤ 2 - t.score.saliency) :
    (t.config.interactivity ≠ .VIEW →
      ∀ u ∈ dislike (like [t] a) a, |u.score.weight - t.score.weight| ≤ 1/100) ∧
    (t.config.interactivity = .VIEW → dislike (like [t] a) a = [t]) := by
  constructor
  · intro hview u hu
    have e1 : like1 a t =
        { t with score := { t.score with weight := round2 (t.score.weight + a) } } := by
      unfold like1
      rw [if_neg hview, min_eq_left hclamp]
    have e2 : dislike1 a (like1 a t) =
        { t with score := { t.score with
            weight := round2 (max (round2 (t.score.weight + a) - a) 0) } } := by
      rw [e1]
      unfold dislike1
      split
      · rename_i hcond
        exact absurd hcond hview
      · rfl
    have hu' : u = dislike1 a (like1 a t) := by
      rw [like, dislike] at hu
      simpa using hu
    rw [hu', e2]
    show |round2 (max (round2 (t.score.weight + a) - a) 0) - t.score.weight| ≤ 1/100
    set w := t.score.weight with hwdef
    set r1 := round2 (w + a) with hr1
    have h1 := round2_abs_sub (w + a)
    rw [← hr1] at h1
    set m := max (r1 - a) 0 with hm
    have h2 : |m - w| ≤ 1/200 := by
      rcases abs_le.mp h1 with ⟨ha1, ha2⟩
      rw [abs_le]
      rcases le_or_lt 0 (r1 - a) with hpos | hneg
      · rw [hm, max_eq_left hpos]
        constructor <;> linarith
      · rw [hm, max_eq_right hneg.le]
        constructor <;> linarith
    have h3 := round2_abs_sub m
    rcases abs_le.mp h2 with ⟨hb1, hb2⟩
    rcases abs_le.mp h3 with ⟨hc1, hc2⟩
    rw [abs_le]
    constructor <;> linarith
  · intro hview
    simp [like, dislike, like1, dislike1, hview]

/-- Witness for the amended C6 theorem: `weight = 0.8`,
`saliency = 0.2`, `amount = 0.5` (unclamped since `1.3 ≤ 1.8`). -/
theorem like_dislike_roundtrip_amended_witness :
    0 ≤ tMid.score.weight ∧
    tMid.score.weight + 1/2 ≤ 2 - tMid.score.saliency ∧
    ((tMid.config.interactivity ≠ .VIEW →
        ∀ u ∈ dislike (like [tMid] (1/2)) (1/2),
          |u.score.weight - tMid.score.weight| ≤ 1/100) ∧
     (tMid.config.interactivity = .VIEW →
        dislike (like [tMid] (1/2)) (1/2) = [tMid])) :=
  ⟨by norm_num [tMid, sampleThought], by norm_num [tMid, sampleThought],
   like_dislike_roundtrip_amended tMid (1/2)
     (by norm_num [tMid, sampleThought]) (by norm_num [tMid, sampleThought])⟩

/-- C7: `react` with an empty reaction returns the list unchanged;
otherwise every non-VIEW thought gets the reaction appended to its
`user_comments` and its weight set to
`round(min(weight + amount, 1.0), 2)` — capped at 1.0, not at
`2.0 - saliency` as in `like` — while VIEW thoughts are untouched. -/
theorem react_empty_noop_append_cap_one :
    (∀ (ts : List Thought) (a : ℚ), react ts "" a = ts) ∧
    (∀ (ts : List Thought) (r : String) (a : ℚ), r ≠ "" →
      ∀ (i : ℕ) (t : Thought), ts[i]? = some t →
        (t.config.interactivity = .VIEW → (react ts r a)[i]? = some t) ∧
        (t.config.interactivity ≠ .VIEW →
          (react ts r a)[i]? = some { t with
            user_comments := t.user_comments ++ [r],
            score := { t.score with weight := round2 (min (t.score.weight + a) 1) } })) := by
  constructor
  · intro ts a
    simp [react]
  · intro ts r a hr i t ht
    have hmap : react ts r a = ts.map (react1 r a) := by
      rw [react, if_neg hr]
    constructor
    · intro hview
      rw [hmap, List.getElem?_map, ht]
      simp [react1, hview]
    · intro hview
      rw [hmap, List.getElem?_map, ht]
      simp [react1, hview]

/-- Witness for the C7 theorem on a two-element list, reacting "ok"
with `amount = 0.1` and reading back index 1. -/
theorem react_empty_noop_append_cap_one_witness :
    ("ok" ≠ "") ∧
    ([tView, tMid][1]? = some tMid) ∧
    ((tMid.config.interactivity = .VIEW →
        (react [tView, tMid] "ok" (1/10))[1]? = some tMid) ∧
     (tMid.config.interactivity ≠ .VIEW →
        (react [tView, tMid] "ok" (1/10))[1]? = some { tMid with
          user_comments := tMid.user_comments ++ ["ok"],
          score := { tMid.score with
            weight := round2 (min (tMid.score.weight + 1/10) 1) } })) :=
  ⟨by decide, rfl,
   react_empty_noop_append_cap_one.2 [tView, tMid] "ok" (1/10) (by decide) 1 tMid rfl⟩

/-- Point-wise timestamp preservation lifts through the per-thought
list map that every operation performs. -/
lemma map_timestamps_of_pointwise (f : Thought → Thought)
    (hf : ∀ t, (f t).timestamps = t.timestamps) (ts : List Thought) :
    (ts.map f).map (fun u => u.timestamps) = ts.map (fun u => u.timestamps) := by
  rw [List.map_map]
  exact List.map_congr_left (fun t _ => hf t)

/-- C9, counterexample: `like` modifies a COMMENT thought (its weight
changes) yet leaves `timestamps` — in particular
`timestamps.updated` — exactly as they were: none of the built-in
operations writes `timestamps.updated`. -/
theorem like_modifies_without_rewriting_updated_counterexample :
    like [tStamped] (1/10) ≠ [tStamped] ∧
    (like [tStamped] (1/10)).map (fun u => u.timestamps) = [tStamped.timestamps] := by
  constructor
  · simp [like, like1, tStamped, sampleThought, round2, round_eq, min_def,
      Thought.mk.injEq, Score.mk.injEq]
    norm_num
  · simp [like, like1, tStamped, sampleThought]

/-- C9 (amended): every built-in operation (`like`, `dislike`, `react`,
`pin`, `unpin`, `anchor`, `unanchor`) leaves every thought's
`timestamps` (both `created` and `updated`) unchanged. -/
theorem operations_preserve_timestamps (ts : List Thought) (r : String) (a : ℚ) :
    (like ts a).map (fun u => u.timestamps) = ts.map (fun u => u.timestamps) ∧
    (dislike ts a).map (fun u => u.timestamps) = ts.map (fun u => u.timestamps) ∧
    (react ts r a).map (fun u => u.timestamps) = ts.map (fun u => u.timestamps) ∧
    (pin ts).map (fun u => u.timestamps) = ts.map (fun u => u.timestamps) ∧
    (unpin ts).map (fun u => u.timestamps) = ts.map (fun u => u.timestamps) ∧
    (anchor ts).map (fun u => u.timestamps) = ts.map (fun u => u.timestamps) ∧
    (unanchor ts).map (fun u => u.timestamps) = ts.map (fun u => u.timestamps) := by
  refine ⟨?_, ?_, ?_, ?_, ?_, ?_, ?_⟩
  · exact map_timestamps_of_pointwise _ (fun t => by unfold like1; split <;> rfl) ts
  · exact map_timestamps_of_pointwise _ (fun t => by unfold dislike1; split <;> rfl) ts
  · by_cases hr : r = ""
    · rw [react, if_pos hr]
    · rw [react, if_neg hr]
      exact map_timestamps_of_pointwise _ (fun t => by unfold react1; split <;> rfl) ts
  · rw [pin]
    exact map_timestamps_of_pointwise
      (fun t => { t with config := { t.config with persistent := true } }) (fun t => rfl) ts
  · rw [unpin]
    exact map_timestamps_of_pointwise
      (fun t => { t with config := { t.config with persistent := false } }) (fun t => rfl) ts
  · rw [anchor]
    exact map_timestamps_of_pointwise
      (fun t => { t with config := { t.config with persistent := true } }) (fun t => rfl) ts
  · rw [unanchor]
    exact map_timestamps_of_pointwise
      (fun t => { t with config := { t.config with persistent := false } }) (fun t => rfl) ts

/-- C2 (code bug): `set_max_thought_count(1)` on a store holding two
persistent thoughts never terminates — the `while` loop's body,
`_prune_least_salient_thought`, removes nothing when every thought is
persistent, so the loop guard stays true for every number of
iterations. -/
theorem set_max_thought_count_diverges_when_all_persistent :
    ∀ fuel : ℕ,
      set_max_thought_count fuel
        { thoughts := [tPers1, tPers2], max_thought_count := 5 } 1 = none := by
  intro fuel
  have hstep : pruneLeastSalient
      { thoughts := [tPers1, tPers2], max_thought_count := (1 : ℤ) } =
      { thoughts := [tPers1, tPers2], max_thought_count := (1 : ℤ) } := rfl
  rw [set_max_thought_count]
  induction fuel with
  | zero => rfl
  | succ n ih =>
    rw [pruneLoop]
    rw [if_pos (by decide)]
    rw [hstep]
    exact ih

/-- C8 (code bug): adding a short-term memory item beyond the tier's
capacity raises `AttributeError` instead of evicting the oldest item:
the prune sorts by the attribute `timestamps`, but `MemoryItem`
declares `timestamp`, so the lookup fails on the very first item. -/
theorem add_memory_item_overflow_attribute_error :
    MemoryItem.getattr mOld "timestamps" = none ∧
    MemoryItem.getattr mOld "timestamp" = some (.ts mOld.timestamp) ∧
    add_memory_item memStoreFull mNew = none := by
  refine ⟨by decide, by decide, ?_⟩
  rfl

/-!  Lemmas about the thought store's eviction machinery.  -/

lemma leastSalient_eq_none {ts : List Thought} :
    leastSalient ts = none ↔ ts = [] := by
  cases ts with
  | nil => simp [leastSalient]
  | cons t ts =>
    simp only [leastSalient]
    constructor
    · intro h
      split at h
      · cases h
      · split at h
        · cases h
        · cases h
    · intro h
      cases h

lemma leastSalient_mem {ts : List Thought} {m : Thought}
    (h : leastSalient ts = some m) : m ∈ ts := by
  induction ts generalizing m with
  | nil => cases h
  | cons t ts ih =>
    rw [leastSalient] at h
    split at h
    · cases h
      exact List.mem_cons_self t ts
    · rename_i u heq
      split at h
      · cases h
        exact List.mem_cons_of_mem t (ih heq)
      · cases h
        exact List.mem_cons_self t ts

lemma leastSalient_min {ts : List Thought} {m : Thought}
    (h : leastSalient ts = some m) :
    ∀ u ∈ ts, m.score.saliency ≤ u.score.saliency := by
  induction ts generalizing m with
  | nil => cases h
  | cons t ts ih =>
    rw [leastSalient] at h
    split at h
    · rename_i heq
      cases h
      rw [leastSalient_eq_none.mp heq]
      intro u hu
      rcases List.mem_cons.mp hu with rfl | hu'
      · exact le_refl _
      · cases hu'
    · rename_i v heq
      split at h
      · rename_i hc
        cases h
        intro u hu
        rcases List.mem_cons.mp hu with rfl | hu'
        · exact le_of_lt hc
        · exact ih heq u hu'
      · rename_i hc
        cases h
        intro u hu
        rcases List.mem_cons.mp hu with rfl | hu'
        · exact le_refl _
        · exact le_trans (not_lt.mp hc) (ih heq u hu')

lemma leastSalient_append_strict {ts : List Thought} {t : Thought}
    (h : ∀ u ∈ ts, t.score.saliency < u.score.saliency) :
    leastSalient (ts ++ [t]) = some t := by
  induction ts with
  | nil => rfl
  | cons a ts ih =>
    have ih' := ih (fun u hu => h u (List.mem_cons_of_mem a hu))
    rw [List.cons_append, leastSalient, ih']
    show (if t.score.saliency < a.score.saliency then some t else some a) = some t
    rw [if_pos (h a (List.mem_cons_self a ts))]

lemma dictInsert_fresh {ts : List Thought} {t : Thought}
    (h : ∀ u ∈ ts, u.id ≠ t.id) :
    dictInsert ts t = ts ++ [t] := by
  rw [dictInsert, if_neg]
  simp only [List.any_eq_true, decide_eq_true_eq, not_exists]
  intro u
  rw [not_and]
  exact fun hu => h u hu

lemma filter_ne_id_eq_self {ts : List Thought} {i : String}
    (h : ∀ u ∈ ts, u.id ≠ i) :
    ts.filter (fun u => u.id ≠ i) = ts := by
  rw [List.filter_eq_self]
  intro u hu
  simp only [decide_eq_true_eq]
  exact h u hu

lemma length_filter_ne_of_pairwise {L : List Thought} {m : Thought}
    (hm : m ∈ L) (hnd : L.Pairwise (fun a b => a.id ≠ b.id)) :
    (L.filter (fun u => u.id ≠ m.id)).length + 1 = L.length := by
  induction L with
  | nil => cases hm
  | cons a L ih =>
    rw [List.pairwise_cons] at hnd
    obtain ⟨ha, hL⟩ := hnd
    rcases List.mem_cons.mp hm with rfl | hm'
    · rw [List.filter_cons, if_neg (by simp)]
      rw [filter_ne_id_eq_self (fun u hu => fun he => (ha u hu) he.symm)]
      simp
    · rw [List.filter_cons, if_pos (by simp [ha m hm'])]
      rw [List.length_cons, List.length_cons]
      rw [ih hm' hL]

lemma add_thought_no_overflow (s : ThoughtStore) (t : Thought)
    (hfresh : ∀ u ∈ s.thoughts, u.id ≠ t.id)
    (hcap : (s.thoughts.length + 1 : ℤ) ≤ s.max_thought_count) :
    (add_thought s t).2 = { s with thoughts := s.thoughts ++ [t] } := by
  unfold add_thought
  simp only [dictInsert_fresh hfresh]
  rw [if_neg]
  rw [not_lt, List.length_append, List.length_cons, List.length_nil]
  push_cast
  linarith

lemma pruneLeastSalient_eq (s : ThoughtStore) (m : Thought)
    (hne : s.thoughts ≠ [])
    (hF : leastSalient (s.thoughts.filter (fun u => !u.config.persistent)) = some m)
    (hmem : m ∈ s.thoughts) :
    pruneLeastSalient s = { s with thoughts := s.thoughts.filter (fun u => u.id ≠ m.id) } := by
  unfold pruneLeastSalient
  rw [if_neg (by simp [List.isEmpty_iff, hne])]
  simp only [hF]
  have hany : (s.thoughts.any fun u => u.id = m.id) = true := by
    simp only [List.any_eq_true, decide_eq_true_eq]
    exact ⟨m, hmem, rfl⟩
  rw [remove_thought, if_pos hany]

lemma add_thought_overflow (s : ThoughtStore) (t : Thought)
    (hfresh : ∀ u ∈ s.thoughts, u.id ≠ t.id)
    (hover : (s.thoughts.length + 1 : ℤ) > s.max_thought_count)
    (hnp : ∃ u ∈ s.thoughts ++ [t], u.config.persistent = false) :
    ∃ m ∈ s.thoughts ++ [t],
      m.config.persistent = false ∧
      (∀ u ∈ s.thoughts ++ [t], u.config.persistent = false →
        m.score.saliency ≤ u.score.saliency) ∧
      (add_thought s t).2 =
        { s with thoughts := (s.thoughts ++ [t]).filter (fun u => u.id ≠ m.id) } := by
  obtain ⟨w, hwmem, hwnp⟩ := hnp
  have hins : (add_thought s t).2 =
      pruneLeastSalient { s with thoughts := s.thoughts ++ [t] } := by
    unfold add_thought
    simp only [dictInsert_fresh hfresh]
    rw [if_pos]
    rw [List.length_append, List.length_cons, List.length_nil]
    push_cast
    linarith
  have hwF : w ∈ (s.thoughts ++ [t]).filter (fun u => !u.config.persistent) := by
    rw [List.mem_filter]
    exact ⟨hwmem, by simp [hwnp]⟩
  cases hF : leastSalient ((s.thoughts ++ [t]).filter (fun u => !u.config.persistent)) with
  | none =>
    rw [leastSalient_eq_none.mp hF] at hwF
    cases hwF
  | some m =>
    have hmF := leastSalient_mem hF
    rw [List.mem_filter] at hmF
    obtain ⟨hmL, hmb⟩ := hmF
    have hmnp : m.config.persistent = false := by
      simpa using hmb
    refine ⟨m, hmL, hmnp, ?_, ?_⟩
    · intro u hu hunp
      refine leastSalient_min hF u ?_
      rw [List.mem_filter]
      exact ⟨hu, by simp [hunp]⟩
    · rw [hins]
      exact pruneLeastSalient_eq _ m (by simp) hF hmL

lemma foldl_add_thought_fills (M : List Thought) (s : ThoughtStore)
    (hnd : (s.thoughts ++ M).Pairwise (fun a b => a.id ≠ b.id))
    (hcap : (s.thoughts.length + M.length : ℤ) ≤ s.max_thought_count) :
    M.foldl (fun st t => (add_thought st t).2) s =
      { s with thoughts := s.thoughts ++ M } := by
  induction M generalizing s with
  | nil => simp
  | cons t M ih =>
    rw [List.foldl_cons]
    have hfresh : ∀ u ∈ s.thoughts, u.id ≠ t.id := by
      rw [List.pairwise_append] at hnd
      intro u hu
      exact hnd.2.2 u hu t (List.mem_cons_self t M)
    have hcap2 : (s.thoughts.length : ℤ) + ((M.length : ℤ) + 1) ≤ s.max_thought_count := by
      simp only [List.length_cons] at hcap
      push_cast at hcap
      linarith
    have hM : (0 : ℤ) ≤ (M.length : ℤ) := Int.natCast_nonneg _
    have h1 := add_thought_no_overflow s t hfresh (by linarith)
    rw [h1]
    have hnd' : (({ s with thoughts := s.thoughts ++ [t] } :
        ThoughtStore).thoughts ++ M).Pairwise (fun a b => a.id ≠ b.id) := by
      simpa [List.append_assoc] using hnd
    have hcap' : ((({ s with thoughts := s.thoughts ++ [t] } :
        ThoughtStore).thoughts.length : ℤ) + (M.length : ℤ)) ≤
        ({ s with thoughts := s.thoughts ++ [t] } : ThoughtStore).max_thought_count := by
      simp only [List.length_append, List.length_cons, List.length_nil]
      push_cast
      linarith
    rw [ih _ hnd' hcap']
    simp [List.append_assoc]

/-- C10: when the store is exactly at capacity and `add` is called with
a fresh non-persistent thought whose saliency is strictly below that of
every stored non-persistent thought, the newcomer itself is evicted:
`add` still returns the thought, but the state is unchanged and
`get` on its id yields `None`. -/
theorem add_at_capacity_evicts_newcomer (s : ThoughtStore) (t : Thought)
    (hfull : (s.thoughts.length : ℤ) = s.max_thought_count)
    (hfresh : ∀ u ∈ s.thoughts, u.id ≠ t.id)
    (hnp : t.config.persistent = false)
    (hmin : ∀ u ∈ s.thoughts, u.config.persistent = false →
      t.score.saliency < u.score.saliency) :
    (add_thought s t).1 = t ∧
    (add_thought s t).2 = s ∧
    get_thought (add_thought s t).2 t.id = none := by
  have hins : (add_thought s t).2 =
      pruneLeastSalient { s with thoughts := s.thoughts ++ [t] } := by
    unfold add_thought
    simp only [dictInsert_fresh hfresh]
    rw [if_pos]
    rw [List.length_append, List.length_cons, List.length_nil]
    push_cast
    linarith
  have hfilter : (s.thoughts ++ [t]).filter (fun u => !u.config.persistent) =
      s.thoughts.filter (fun u => !u.config.persistent) ++ [t] := by
    rw [List.filter_append]
    simp [List.filter_cons, hnp]
  have hleast : leastSalient ((s.thoughts ++ [t]).filter (fun u => !u.config.persistent)) =
      some t := by
    rw [hfilter]
    apply leastSalient_append_strict
    intro u hu
    rw [List.mem_filter] at hu
    exact hmin u hu.1 (by simpa using hu.2)
  have hprune := pruneLeastSalient_eq { s with thoughts := s.thoughts ++ [t] } t
    (by simp) hleast (by simp)
  have hfilter2 : (s.thoughts ++ [t]).filter (fun u => u.id ≠ t.id) = s.thoughts := by
    rw [List.filter_append, filter_ne_id_eq_self hfresh]
    simp
  have hstate : (add_thought s t).2 = s := by
    rw [hins, hprune]
    rw [show ({ s with thoughts := s.thoughts ++ [t] } : ThoughtStore).thoughts =
      s.thoughts ++ [t] from rfl, hfilter2]
  refine ⟨rfl, hstate, ?_⟩
  rw [hstate]
  unfold get_thought
  rw [List.find?_eq_none]
  intro u hu
  simp only [decide_eq_true_eq]
  exact hfresh u hu

/-- Witness for C10: a store holding one COMMENT thought of saliency
0.5 at capacity 1, adding a fresh non-persistent thought of saliency
0.25. -/
theorem add_at_capacity_evicts_newcomer_witness :
    ((storeFull.thoughts.length : ℤ) = storeFull.max_thought_count) ∧
    (∀ u ∈ storeFull.thoughts, u.id ≠ tNewLow.id) ∧
    tNewLow.config.persistent = false ∧
    (∀ u ∈ storeFull.thoughts, u.config.persistent = false →
      tNewLow.score.saliency < u.score.saliency) ∧
    ((add_thought storeFull tNewLow).1 = tNewLow ∧
     (add_thought storeFull tNewLow).2 = storeFull ∧
     get_thought (add_thought storeFull tNewLow).2 tNewLow.id = none) := by
  have hmin : ∀ u ∈ storeFull.thoughts, u.config.persistent = false →
      tNewLow.score.saliency < u.score.saliency := by
    intro u hu _
    rw [show u = tStoredA from List.mem_singleton.mp hu]
    norm_num [tStoredA, tNewLow, sampleThought]
  exact ⟨by decide, by decide, by decide, hmin,
    add_at_capacity_evicts_newcomer storeFull tNewLow (by decide) (by decide) (by decide) hmin⟩

/-- C1: (1) inserting `capacity + 1` non-persistent thoughts with
distinct ids into an empty store leaves exactly `capacity` thoughts,
the one removed having minimal `score.saliency` among those inserted;
(2) in general, when an `add` of a fresh thought makes the count exceed
the capacity and some stored thought is non-persistent, exactly one
thought is evicted, one of minimal `score.saliency` among the stored
non-persistent thoughts. -/
theorem thought_store_capacity_eviction :
    (∀ (cap : ℕ) (L : List Thought),
      L.length = cap + 1 →
      L.Pairwise (fun a b => a.id ≠ b.id) →
      (∀ u ∈ L, u.config.persistent = false) →
      (L.foldl (fun st u => (add_thought st u).2)
          { thoughts := [], max_thought_count := (cap : ℤ) }).thoughts.length = cap ∧
      ∃ m ∈ L, (∀ u ∈ L, m.score.saliency ≤ u.score.saliency) ∧
        (L.foldl (fun st u => (add_thought st u).2)
            { thoughts := [], max_thought_count := (cap : ℤ) }).thoughts =
          L.filter (fun u => u.id ≠ m.id)) ∧
    (∀ (s : ThoughtStore) (t : Thought),
      (s.thoughts ++ [t]).Pairwise (fun a b => a.id ≠ b.id) →
      ((s.thoughts.length + 1 : ℤ) > s.max_thought_count) →
      (∃ u ∈ s.thoughts ++ [t], u.config.persistent = false) →
      ∃ m ∈ s.thoughts ++ [t],
        m.config.persistent = false ∧
        (∀ u ∈ s.thoughts ++ [t], u.config.persistent = false →
          m.score.saliency ≤ u.score.saliency) ∧
        (add_thought s t).2.thoughts = (s.thoughts ++ [t]).filter (fun u => u.id ≠ m.id) ∧
        (add_thought s t).2.thoughts.length = s.thoughts.length) := by
  constructor
  · intro cap L hlen hnd hpers
    rcases List.eq_nil_or_concat L with rfl | ⟨I, tl, rfl⟩
    · simp at hlen
    · rw [List.concat_eq_append] at hlen hnd hpers ⊢
      have hIlen : I.length = cap := by
        rw [List.length_append, List.length_cons, List.length_nil] at hlen
        omega
      have hfold : (I ++ [tl]).foldl (fun st u => (add_thought st u).2)
          { thoughts := [], max_thought_count := (cap : ℤ) } =
          (add_thought (I.foldl (fun st u => (add_thought st u).2)
            { thoughts := [], max_thought_count := (cap : ℤ) }) tl).2 := by
        rw [List.foldl_append, List.foldl_cons, List.foldl_nil]
      have hndI : ((({ thoughts := [], max_thought_count := (cap : ℤ) } :
          ThoughtStore).thoughts ++ I)).Pairwise (fun a b => a.id ≠ b.id) := by
        rw [show ({ thoughts := [], max_thought_count := (cap : ℤ) } :
          ThoughtStore).thoughts = [] from rfl, List.nil_append]
        exact (List.pairwise_append.mp hnd).1
      have hfill := foldl_add_thought_fills I
        { thoughts := [], max_thought_count := (cap : ℤ) } hndI
        (by
          rw [show (({ thoughts := [], max_thought_count := (cap : ℤ) } :
            ThoughtStore).thoughts.length : ℤ) = 0 from rfl]
          rw [hIlen]
          simp)
      simp only [List.nil_append] at hfill
      have hfreshtl : ∀ u ∈ I, u.id ≠ tl.id := by
        intro u hu
        exact (List.pairwise_append.mp hnd).2.2 u hu tl (List.mem_singleton.mpr rfl)
      have hnptl : ∃ u ∈ I ++ [tl], u.config.persistent = false :=
        ⟨tl, by simp, hpers tl (by simp)⟩
      obtain ⟨m, hmL, hmnp, hmmin, heq⟩ := add_thought_overflow
        { thoughts := I, max_thought_count := (cap : ℤ) } tl hfreshtl
        (by
          show (I.length : ℤ) + 1 > (cap : ℤ)
          rw [hIlen]
          omega)
        hnptl
      constructor
      · rw [hfold, hfill, heq]
        show ((I ++ [tl]).filter (fun u => u.id ≠ m.id)).length = cap
        have hmL' : m ∈ I ++ [tl] := hmL
        have hl := length_filter_ne_of_pairwise hmL' hnd
        have hl2 : (I ++ [tl]).length = I.length + 1 := by
          rw [List.length_append, List.length_cons, List.length_nil]
        omega
      · refine ⟨m, hmL, fun u hu => hmmin u hu (hpers u hu), ?_⟩
        rw [hfold, hfill, heq]
  · intro s t hnd hover hnp
    have hfresh : ∀ u ∈ s.thoughts, u.id ≠ t.id := by
      intro u hu
      exact (List.pairwise_append.mp hnd).2.2 u hu t (List.mem_singleton.mpr rfl)
    obtain ⟨m, hmL, hmnp, hmmin, heq⟩ := add_thought_overflow s t hfresh hover hnp
    refine ⟨m, hmL, hmnp, hmmin, by rw [heq], ?_⟩
    rw [heq]
    have hl := length_filter_ne_of_pairwise hmL hnd
    rw [List.length_append, List.length_cons, List.length_nil] at hl
    show ((s.thoughts ++ [t]).filter (fun u => u.id ≠ m.id)).length = s.thoughts.length
    omega

/-- Witness for C1: two non-persistent thoughts of saliencies 0.5 and
0.25 inserted into an empty store of capacity 1. -/
theorem thought_store_capacity_eviction_witness :
    (([tStoredA, tNewLow] : List Thought).length = 1 + 1) ∧
    ([tStoredA, tNewLow] : List Thought).Pairwise (fun a b => a.id ≠ b.id) ∧
    (∀ u ∈ [tStoredA, tNewLow], u.config.persistent = false) ∧
    (([tStoredA, tNewLow].foldl (fun st u => (add_thought st u).2)
        { thoughts := [], max_thought_count := ((1 : ℕ) : ℤ) }).thoughts.length = 1 ∧
     ∃ m ∈ [tStoredA, tNewLow],
       (∀ u ∈ [tStoredA, tNewLow], m.score.saliency ≤ u.score.saliency) ∧
       ([tStoredA, tNewLow].foldl (fun st u => (add_thought st u).2)
          { thoughts := [], max_thought_count := ((1 : ℕ) : ℤ) }).thoughts =
         [tStoredA, tNewLow].filter (fun u => u.id ≠ m.id)) :=
  ⟨rfl, by decide, by decide,
   thought_store_capacity_eviction.1 1 [tStoredA, tNewLow] rfl (by decide) (by decide)⟩

/-- A zero vector has zero sum of squares. -/
lemma sumSq_eq_zero {v : List ℚ} (h : ∀ x ∈ v, x = 0) : sumSq v = 0 := by
  rw [sumSq]
  apply List.sum_eq_zero
  intro y hy
  rw [List.mem_map] at hy
  obtain ⟨x, hx, rfl⟩ := hy
  rw [h x hx]
  ring

/-- C5: the similarity-merge step returns an updated copy of the first
candidate in scan order whose cosine similarity with the new thought
exceeds 0.8, with `saliency := min(saliency + 0.2, 2.0 - weight)`, and
admits the new thought when no candidate exceeds 0.8; the similarity is
0 when either embedding is null, empty, or of zero magnitude, and is
always clamped into `[-1, 1]`. -/
theorem similarity_merge_first_match :
    (∀ (newT : Thought) (pre post : List Thought) (c : Thought),
      (∀ x ∈ pre, cosine_similarity newT.content.embedding x.content.embedding ≤ 0.8) →
      (0.8 : ℝ) < cosine_similarity newT.content.embedding c.content.embedding →
      similarity_merge newT (pre ++ c :: post) =
        .merged { c with score := { c.score with
          saliency := min (c.score.saliency + 0.2) (2 - c.score.weight) } }) ∧
    (∀ (newT : Thought) (cands : List Thought),
      (∀ x ∈ cands, cosine_similarity newT.content.embedding x.content.embedding ≤ 0.8) →
      similarity_merge newT cands = .admitted newT) ∧
    (∀ e : Option (List ℚ), cosine_similarity none e = 0 ∧ cosine_similarity e none = 0) ∧
    (∀ v : List ℚ, cosine_similarity (some []) (some v) = 0 ∧
      cosine_similarity (some v) (some []) = 0) ∧
    (∀ v w : List ℚ, (∀ x ∈ v, x = 0) →
      cosine_similarity (some v) (some w) = 0 ∧
      cosine_similarity (some w) (some v) = 0) ∧
    (∀ e1 e2 : Option (List ℚ),
      -1 ≤ cosine_similarity e1 e2 ∧ cosine_similarity e1 e2 ≤ 1) := by
  refine ⟨?_, ?_, ?_, ?_, ?_, ?_⟩
  · intro newT pre post c
    induction pre with
    | nil =>
      intro _ hc
      rw [List.nil_append, similarity_merge, if_pos hc]
    | cons a pre ih =>
      intro hpre hc
      rw [List.cons_append, similarity_merge,
        if_neg (not_lt.mpr (hpre a (List.mem_cons_self a pre)))]
      exact ih (fun x hx => hpre x (List.mem_cons_of_mem a hx)) hc
  · intro newT cands
    induction cands with
    | nil => intro _; rfl
    | cons a cands ih =>
      intro h
      rw [similarity_merge, if_neg (not_lt.mpr (h a (List.mem_cons_self a cands)))]
      exact ih (fun x hx => h x (List.mem_cons_of_mem a hx))
  · intro e
    exact ⟨by cases e <;> rfl, by cases e <;> rfl⟩
  · intro v
    exact ⟨by simp [cosine_similarity], by simp [cosine_similarity]⟩
  · intro v w hv
    have hs : Real.sqrt ((sumSq v : ℚ) : ℝ) = 0 := by
      rw [sumSq_eq_zero hv]
      norm_num [Real.sqrt_zero]
    constructor
    · simp only [cosine_similarity]
      split
      · rfl
      · rw [if_pos (Or.inl hs)]
    · simp only [cosine_similarity]
      split
      · rfl
      · rw [if_pos (Or.inr hs)]
  · intro e1 e2
    rcases e1 with _ | v1 <;> rcases e2 with _ | v2
    · exact ⟨by norm_num [cosine_similarity], by norm_num [cosine_similarity]⟩
    · exact ⟨by norm_num [cosine_similarity], by norm_num [cosine_similarity]⟩
    · exact ⟨by norm_num [cosine_similarity], by norm_num [cosine_similarity]⟩
    · constructor
      · simp only [cosine_similarity]
        split
        · norm_num
        · split
          · norm_num
          · exact le_max_right _ _
      · simp only [cosine_similarity]
        split
        · norm_num
        · split
          · norm_num
          · exact max_le (min_le_right _ _) (by norm_num)

/-- Witness for C5: embedding `[1, 0]` against the candidates
`[0, 1]` (similarity 0) and `[2, 0]` (similarity 1 > 0.8). -/
theorem similarity_merge_first_match_witness :
    (∀ x ∈ [tCandOrth],
      cosine_similarity tEmbedNew.content.embedding x.content.embedding ≤ 0.8) ∧
    ((0.8 : ℝ) < cosine_similarity tEmbedNew.content.embedding tCandNear.content.embedding) ∧
    similarity_merge tEmbedNew ([tCandOrth] ++ tCandNear :: []) =
      .merged { tCandNear with score := { tCandNear.score with
        saliency := min (tCandNear.score.saliency + 0.2) (2 - tCandNear.score.weight) } } := by
  have h1 : cosine_similarity tEmbedNew.content.embedding tCandOrth.content.embedding = 0 := by
    simp [tEmbedNew, tCandOrth, sampleThoughtE, sampleThought, cosine_similarity, npDot, sumSq]
  have h2 : cosine_similarity tEmbedNew.content.embedding tCandNear.content.embedding = 1 := by
    simp [tEmbedNew, tCandNear, sampleThoughtE, sampleThought, cosine_similarity, npDot, sumSq]
  have horth : ∀ x ∈ [tCandOrth],
      cosine_similarity tEmbedNew.content.embedding x.content.embedding ≤ 0.8 := by
    intro x hx
    rw [List.mem_singleton.mp hx, h1]
    norm_num
  have hnear : (0.8 : ℝ) <
      cosine_similarity tEmbedNew.content.embedding tCandNear.content.embedding := by
    rw [h2]
    norm_num
  exact ⟨horth, hnear,
    similarity_merge_first_match.1 tEmbedNew [tCandOrth] [] tCandNear horth hnear⟩

end ThoughtKit
